import Mathlib

/-!
A verification development for the six-degrees-bot repository.

The Rust sources are shallowly embedded into Lean:

* `map_intersect.rs` — `intersection_map`, an intersection iterator over two
  hash maps; hash maps are embedded as association lists with distinct keys.
* `network/base.rs` — the `Network` social graph (nodes, `Following` edges,
  per-user metadata cache and last-follow-update timestamps).
* `network/follow.rs` — the ego-centric `FollowNetwork` level builder and the
  `generate_user_ranks` recommendation ranking.
* `sep_degrees.rs` — `find_sep_degrees`, the bidirectional round-synchronised
  frontier search, with its border-expansion and backtracking logic.

Machine integers (`usize`, `u32`, `i32`) only ever hold small counts here, so
they are embedded as `Nat`/`Int` without overflow wrapping.  Fallible paths
(`unwrap`, `expect`, failed `assert!`, arithmetic-overflow aborts of the Rust
code) are embedded as `none` in an `Option` layer, so that an aborting run is
distinguished from every normal result.
-/

namespace SixDeg

/-- A nostr public key; `PublicKey` equality is by raw bytes, so an abstract
`Nat` is a faithful stand-in. -/
abbrev PublicKey := Nat

/-- Unix timestamp, an abstract `Nat`. -/
abbrev Timestamp := Nat

/-- Profile metadata; its contents are never inspected by the core. -/
abbrev Metadata := Nat

/-! ### Association lists standing in for `HashMap`

`HashMap` values are embedded as association lists whose keys are distinct.
`keyFind` is `HashMap::get`, `keyInsert` is `HashMap::insert` (overwriting any
previous binding of the key). -/

/-- Lookup of the binding of `k`, as `HashMap::get`. -/
def keyFind (k : Nat) : List (Nat × β) → Option β
  | [] => none
  | (a, b) :: rest => if a = k then some b else keyFind k rest

/-- Overwriting insert, as `HashMap::insert`. -/
def keyInsert (k : Nat) (v : β) (m : List (Nat × β)) : List (Nat × β) :=
  (k, v) :: m.filter fun p => p.1 ≠ k

/-- The key list of a mapping. -/
def keysOf (m : List (Nat × β)) : List Nat :=
  m.map Prod.fst

/-! ### `map_intersect.rs` -/

/-- One full run of the `IntersectionMap` iterator (`IntersectionMap::next`
driven to exhaustion): walk the iterated side `it`, probe the other side
`probe`, and pair the values according to `parity` — `parity = true` means the
iterated side is the second argument of `intersection_map`, so the probed
value comes first. -/
def intersectionRun (it probe : List (Nat × β)) (parity : Bool) :
    List (Nat × β × β) :=
  it.filterMap fun kv =>
    match keyFind kv.1 probe with
    | some v2 => some (if parity then (kv.1, v2, kv.2) else (kv.1, kv.2, v2))
    | none => none

/-- Embeds `intersection_map` from `map_intersect.rs`: iterate the smaller of the two
mappings and probe the larger, flipping `parity` when the second argument is
the iterated one. -/
def intersection_map (first other : List (Nat × β)) : List (Nat × β × β) :=
  if first.length ≤ other.length then intersectionRun first other false
  else intersectionRun other first true

/-! ### `network/base.rs` — the `Network` social graph

`petgraph::DiGraph` nodes are identified with the public keys they carry
(the spec's invariant: node existence is 1:1 with membership in the
identity→index map), an edge handle is the edge's position in the edge list,
and `Timestamp::now()` is threaded in as an explicit `now` argument. -/

/-- Index of the first element satisfying `p`, as an iterator search such as
`Iterator::next` on a filtered edge iterator would produce it. -/
def findFirstIdx (p : α → Bool) : List α → Option Nat
  | [] => none
  | a :: l => if p a then some 0 else (findFirstIdx p l).map (· + 1)

/-- The single edge label of the graph. -/
inductive EdgeKind
  | Following
deriving DecidableEq, Repr

/-- Graph that tracks association between users (follows, etc.). -/
structure Network where
  nodes : List PublicKey
  edges : List (PublicKey × PublicKey × EdgeKind)
  users_metadata : List (PublicKey × Option (Metadata × Timestamp))
  added_out_edges : List (PublicKey × Timestamp)
deriving DecidableEq, Repr

namespace Network

/-- Embeds `Network::new`. -/
def new : Network := ⟨[], [], [], []⟩

/-- Embeds `Network::contains_user`. -/
def contains_user (net : Network) (user : PublicKey) : Bool :=
  user ∈ net.nodes

/-- Embeds `Network::add_user`: returns `(node, false)` if the user is already in
the network, otherwise adds it and returns `(node, true)`. -/
def add_user (net : Network) (user : PublicKey) : Network × Bool :=
  if user ∈ net.nodes then (net, false)
  else ({ net with nodes := net.nodes ++ [user] }, true)

/-- Embeds `Network::pubkey_to_node`: the arena index of a user's node. -/
def pubkey_to_node (net : Network) (user : PublicKey) : Option Nat :=
  findFirstIdx (fun x => x = user) net.nodes

/-- Embeds `Network::get_following_edge_nodes`: the handle (position) of the first
`Following` edge from `user` to `follow`, if any. -/
def get_following_edge (net : Network) (user follow : PublicKey) : Option Nat :=
  findFirstIdx (fun e => e.1 = user ∧ e.2.1 = follow ∧ e.2.2 = EdgeKind.Following)
    net.edges

/-- Embeds `Network::is_following_nodes`. -/
def is_following (net : Network) (user follow : PublicKey) : Bool :=
  (net.get_following_edge user follow).isSome

/-- Embeds `Network::add_follow_nodes`: a no-op returning the existing handle when a
`Following` edge is already present; otherwise records the user's
last-follow-update timestamp and appends the new edge. -/
def add_follow_nodes (net : Network) (now : Timestamp) (user follow : PublicKey) :
    Network × Nat :=
  match net.get_following_edge user follow with
  | some i => (net, i)
  | none =>
    ({ net with
        added_out_edges := keyInsert user now net.added_out_edges,
        edges := net.edges ++ [(user, follow, EdgeKind.Following)] },
      net.edges.length)

/-- Embeds `Network::add_follow`. -/
def add_follow (net : Network) (now : Timestamp) (user follow : PublicKey) :
    Network × Nat :=
  let n1 := (net.add_user user).1
  let n2 := (n1.add_user follow).1
  n2.add_follow_nodes now user follow

/-- Embeds `Network::remove_contact_list`: adds the user if absent (and then
returns), otherwise removes every outgoing `Following` edge of the user. -/
def remove_contact_list (net : Network) (user : PublicKey) : Network :=
  let (net1, added) := net.add_user user
  if added then net1
  else { net1 with
    edges := net1.edges.filter fun e =>
      ¬(e.1 = user ∧ e.2.2 = EdgeKind.Following) }

/-- Embeds `Network::update_contact_list`: removes old follows of `user` and adds an
edge to each member of `contacts`. -/
def update_contact_list (net : Network) (now : Timestamp) (user : PublicKey)
    (contacts : List PublicKey) : Network :=
  let (net1, added) := net.add_user user
  let net2 := if ¬added then net1.remove_contact_list user else net1
  contacts.foldl (fun n c => (n.add_follow now user c).1) net2

/-- Embeds `Network::does_user_follow`: the user's last-follow-update timestamp. -/
def does_user_follow (net : Network) (user : PublicKey) : Option Timestamp :=
  keyFind user net.added_out_edges

/-- Embeds `Network::are_users_mutuals`.  The Rust body unwraps
`pubkey_to_node` for both arguments and aborts when either is absent from the
graph; the abort is modelled as `none`. -/
def are_users_mutuals (net : Network) (user other : PublicKey) : Option Bool := do
  let _ ← net.pubkey_to_node user
  let _ ← net.pubkey_to_node other
  pure (net.is_following user other && net.is_following other user)

/-- Embeds `Network::get_user_mutuals`: the intersection of the user's outgoing
targets and incoming sources over `Following` edges (a `HashSet`
intersection, so without duplicates); empty when the user is unknown. -/
def get_user_mutuals (net : Network) (user : PublicKey) : List PublicKey :=
  if user ∉ net.nodes then []
  else
    let outgoing :=
      ((net.edges.filter fun e => e.1 = user ∧ e.2.2 = EdgeKind.Following).map
        fun e => e.2.1).dedup
    let ingoing :=
      ((net.edges.filter fun e => e.2.1 = user ∧ e.2.2 = EdgeKind.Following).map
        fun e => e.1).dedup
    ingoing.filter fun x => x ∈ outgoing

/-- Embeds `Network::get_user_contacts`: the targets of the user's outgoing
`Following` edges; empty when the user is unknown. -/
def get_user_contacts (net : Network) (user : PublicKey) : List PublicKey :=
  if user ∉ net.nodes then []
  else (net.edges.filter fun e => e.1 = user ∧ e.2.2 = EdgeKind.Following).map
    fun e => e.2.1

/-- Embeds `Network::add_user_metadata`. -/
def add_user_metadata (net : Network) (user : PublicKey) (m : Metadata)
    (t : Timestamp) : Network :=
  { net with users_metadata := keyInsert user (some (m, t)) net.users_metadata }

/-- Embeds `Network::extend_users_metadata`. -/
def extend_users_metadata (net : Network)
    (it : List (PublicKey × Option (Metadata × Timestamp))) : Network :=
  { net with users_metadata := it.foldl (fun m p => keyInsert p.1 p.2 m) net.users_metadata }

/-- Embeds `Network::add_user_no_metadata`. -/
def add_user_no_metadata (net : Network) (user : PublicKey) : Network :=
  { net with users_metadata := keyInsert user none net.users_metadata }

/-- Embeds `Network::get_pubkey_metadata`: both an absent entry and an explicit
"queried, none found" entry yield `none`. -/
def get_pubkey_metadata (net : Network) (user : PublicKey) :
    Option (Metadata × Timestamp) :=
  match keyFind user net.users_metadata with
  | some (some s) => some s
  | some none => none
  | none => none

/-- Well-formedness of a graph state: every edge endpoint is a registered
node.  Every `Network` the Rust code can build satisfies this, since edges
are only ever added through `add_follow`, which registers both endpoints. -/
def Wf (net : Network) : Prop :=
  ∀ e ∈ net.edges, e.1 ∈ net.nodes ∧ e.2.1 ∈ net.nodes

instance (net : Network) : Decidable net.Wf := by
  unfold Wf; infer_instance

/-- Relation asserting that `u` follows `v`: the graph holds a `Following`
edge from `u` to `v`. -/
def followsTo (net : Network) (u v : PublicKey) : Prop :=
  (u, v, EdgeKind.Following) ∈ net.edges

instance (net : Network) (u v : PublicKey) : Decidable (net.followsTo u v) := by
  unfold followsTo
  infer_instance

end Network

/-! ### The data-source collaborator

`get_following_multiple_users_with_timestamp_and_timeout` is embedded as a
pure map from identity to its current contact list: identities with no
discoverable contact-list record are absent from every fetch result
(`none`), never an error entry.  Timestamps carried by fetch results are
only stored, never compared, by the algorithms below, so they are elided
(graph merges use time `0`). -/

/-- A batched contact-list fetch, collapsed to its per-identity result. -/
def Src := PublicKey → Option (List PublicKey)

/-! ### `network/follow.rs` — the ego-centric `FollowNetwork` -/

/-- Embeds `RankReasons` from `network/follow.rs`. -/
inductive RankReasons
  | MutualConnections : List PublicKey → RankReasons
deriving DecidableEq, Repr

/-- Embeds `RecommendationError` from `network/follow.rs`. -/
inductive RecommendationError
  | NotEnoughLevels
  | InternalGraphError : Int → RecommendationError
deriving DecidableEq, Repr

/-- Network that is centered in a particular user, tracking user follows.
The `client` handle is replaced by passing a `Src` to each operation. -/
structure FollowNetwork where
  net : Network
  users_distances : List (PublicKey × Nat)
  levels : List (List PublicKey)
deriving Repr

namespace FollowNetwork

/-- Embeds `FollowNetwork::new`: registers the root user (with its profile
metadata) when absent, and starts with level 0 = the singleton root. -/
def new (user_pubkey : PublicKey) (m : Metadata) (t : Timestamp)
    (net : Network) : FollowNetwork :=
  let net1 :=
    if ¬net.contains_user user_pubkey then
      ((net.add_user user_pubkey).1).add_user_metadata user_pubkey m t
    else net
  { net := net1, users_distances := [(user_pubkey, 0)],
    levels := [[user_pubkey]] }

/-- The next level computed by `add_level`: every followee reported for the
top level that is present in no already-built level, as a set. -/
def next_level_of (src : Src) (levels : List (List PublicKey)) :
    List PublicKey :=
  let top_level := levels.getLastD []
  let users_following := top_level.filterMap fun u => (src u).map fun c => (u, c)
  (((users_following.map Prod.snd).flatten).filter fun f =>
    levels.all fun lvl => f ∉ lvl).dedup

/-- Embeds `FollowNetwork::add_level`: fetch the top level's contact lists (the
2000-sized chunking collapses to one merged fetch), push the next level,
record each newcomer's level index, and merge every reported follow edge
into the shared graph. -/
def add_level (src : Src) (fn : FollowNetwork) : FollowNetwork :=
  let users_following :=
    (fn.levels.getLastD []).filterMap fun u => (src u).map fun c => (u, c)
  let next_level := next_level_of src fn.levels
  { net := users_following.foldl
      (fun n p => p.2.foldl (fun n2 c => (n2.add_follow 0 p.1 c).1) n) fn.net,
    users_distances := next_level.foldl
      (fun m f => keyInsert f fn.levels.length m) fn.users_distances,
    levels := fn.levels ++ [next_level] }

/-- The level-1 qualified mutuals of a level-2 candidate, as collected into
`mutual_reasons` by `generate_user_ranks`. -/
def mutual_reasons_of (fn : FollowNetwork) (u : PublicKey) : List PublicKey :=
  (fn.net.get_user_mutuals u).filter fun m => m ∈ fn.levels.getD 1 []

/-- Embeds `FollowNetwork::generate_user_ranks`: requires levels 0, 1, 2 built;
ranks each level-2 identity by `10 ×` its number of level-1 mutuals and
sorts ascending by rank. -/
def generate_user_ranks (fn : FollowNetwork) :
    Except RecommendationError (List (PublicKey × Int × List RankReasons)) :=
  if fn.levels.length ≤ 2 then .error .NotEnoughLevels
  else
    let entries := (fn.levels.getD 2 []).map fun u =>
      (u, (10 : Int) * (mutual_reasons_of fn u).length,
        [RankReasons.MutualConnections (mutual_reasons_of fn u)])
    .ok (entries.insertionSort fun a b => a.2.1 ≤ b.2.1)

end FollowNetwork

/-! ### `sep_degrees.rs` — the bidirectional separation search -/

/-- Embeds `SepDegreeError` from `sep_degrees.rs` (the nostr client error payload is
elided: the pure data source never produces one). -/
inductive SepDegreeError
  | TooFewArguments
  | TooMuchArguments
  | NostrClientError
  | NotFound
  | MissingContactList : PublicKey → SepDegreeError
deriving DecidableEq, Repr

/-- One side's per-depth level map: discovered identity ↦ backpointer. -/
abbrev LevelMap := List (PublicKey × PublicKey)

/-- The loop state of `find_sep_degrees`: the shared graph, both sides'
level-map sequences and borders, and the round counter. -/
structure SepState where
  net : Network
  mutual_levels_1 : List LevelMap
  mutual_levels_2 : List LevelMap
  border1 : List PublicKey
  border2 : List PublicKey
  current_distance : Nat
deriving DecidableEq, Repr

/-- The boolean value of `are_users_mutuals` on registered identities.  The
search loop only ever tests mutuality between a border identity with
outgoing edges and one of its contacts, which are both registered, so the
`unwrap` abort of `are_users_mutuals` cannot fire there. -/
def mutualsB (net : Network) (u v : PublicKey) : Bool :=
  net.is_following u v && net.is_following v u

/-- The backpointer walk of the `n > 2` collision case: while the walker has
not reached the side's target, push it and follow its backpointer one index
down.  A missing backpointer (`expect`) and the `usize` underflow of
`index -= 1` at index 0 (an abort in debug builds) are modelled as `none`. -/
def backtrackWalk (t : PublicKey) (levels : List LevelMap) :
    Nat → PublicKey → Option (List PublicKey)
  | idx, back =>
    if back = t then some []
    else
      match keyFind back (levels.getD idx []) with
      | none => none
      | some nb =>
        match idx with
        | 0 => none
        | i + 1 => (backtrackWalk t levels i nb).map fun l => back :: l

/-- The collision check performed at the top of every round
(`intersection.next()` over the two most recent level maps) together with
the distance-cased result construction.  `none`: no collision, the loop
continues.  `some none`: the run aborts (a failed `assert!` or a
backtracking abort).  `some (some r)`: the search returns `r`. -/
def checkCollision (t1 t2 : PublicKey) (st : SepState) :
    Option (Option (Except SepDegreeError (Nat × List PublicKey))) :=
  match intersection_map (st.mutual_levels_1.getLastD [])
      (st.mutual_levels_2.getLastD []) with
  | [] => none
  | (user_match, back1, back2) :: _ =>
    some (match st.current_distance with
      | 0 => if t1 = t2 then some (.ok (0, [t1])) else none
      | 1 => if t1 = user_match ∨ t2 = user_match then some (.ok (1, [t1, t2]))
          else none
      | 2 => if t1 ≠ user_match ∨ t2 ≠ user_match then
            some (.ok (2, [t1, user_match, t2]))
          else none
      | n + 3 =>
        match backtrackWalk t1 st.mutual_levels_1
            (st.mutual_levels_1.length - 2) back1,
          backtrackWalk t2 st.mutual_levels_2
            (st.mutual_levels_2.length - 2) back2 with
        | some backtrack1, some backtrack2 =>
          some (.ok (n + 3,
            [t1] ++ backtrack1.reverse ++ [user_match] ++ backtrack2 ++ [t2]))
        | _, _ => none)

/-- The fetch phase of one side's expansion: border identities with no
recorded follow update are fetched (the 300-sized chunking collapses to one
merged fetch) and each found contact list is merged via
`update_contact_list`; identities absent from the fetch result are skipped. -/
def fetchPhase (src : Src) (net : Network) (border : List PublicKey) : Network :=
  (border.filter fun u => (net.does_user_follow u).isNone).foldl
    (fun n u =>
      match src u with
      | some contacts => n.update_contact_list 0 u contacts
      | none => n) net

/-- A border identity's qualifying next-level contacts: contacts present as
keys of the side's most recent level map that the post-fetch graph confirms
mutual in both directions. -/
def qualifyingContacts (net : Network) (levels : List LevelMap)
    (user : PublicKey) : List PublicKey :=
  (net.get_user_contacts user).filter fun follow =>
    (keyFind follow (levels.getLastD [])).isSome && mutualsB net user follow

/-- A border identity's seed contacts: contacts that are present in no level
map of its side. -/
def seedContacts (net : Network) (levels : List LevelMap)
    (user : PublicKey) : List PublicKey :=
  (net.get_user_contacts user).filter fun follow =>
    (keyFind follow (levels.getLastD [])).isNone &&
      (levels.all fun lvl => (keyFind follow lvl).isNone)

/-- One border identity's pass of the expansion loop: walk its current
contacts, inserting `user ↦ follow` into the accumulated next level map for
every qualifying contact, collecting its `new_border_i_user` seed list, and
appending that list to the accumulated new border only when the
`flag_in_next_level` flag was raised. -/
def stepUser (net1 : Network) (levels : List LevelMap)
    (acc : LevelMap × List PublicKey) (user : PublicKey) :
    LevelMap × List PublicKey :=
  let inner := (net1.get_user_contacts user).foldl
    (fun (acc2 : LevelMap × List PublicKey × Bool) follow =>
      if (keyFind follow (levels.getLastD [])).isSome then
        if mutualsB net1 user follow then
          (keyInsert user follow acc2.1, acc2.2.1, true)
        else acc2
      else
        if levels.all fun lvl => (keyFind follow lvl).isNone then
          (acc2.1, acc2.2.1 ++ [follow], acc2.2.2)
        else acc2)
    (acc.1, [], false)
  (inner.1, if inner.2.2 then acc.2 ++ inner.2.1 else acc.2)

/-- One side's full expansion (`sep_degrees.rs` lines 237-325): the fetch
phase, then one pass over the border building the next level map and the
next border (collected into a set). -/
def advanceSide (src : Src) (net : Network) (levels : List LevelMap)
    (border : List PublicKey) : Network × List LevelMap × List PublicKey :=
  let net1 := fetchPhase src net border
  let stepped := border.foldl (stepUser net1 levels) ([], [])
  (net1, levels ++ [stepped.1], stepped.2.dedup)

/-- One loop iteration's state change for side `i` (the expansion followed
by the `current_distance += 1`). -/
def stepRound (src : Src) (i : Nat) (st : SepState) : SepState :=
  if i = 1 then
    let r := advanceSide src st.net st.mutual_levels_1 st.border1
    { st with
      net := r.1
      mutual_levels_1 := r.2.1
      border1 := r.2.2
      current_distance := st.current_distance + 1 }
  else
    let r := advanceSide src st.net st.mutual_levels_2 st.border2
    { st with
      net := r.1
      mutual_levels_2 := r.2.1
      border2 := r.2.2
      current_distance := st.current_distance + 1 }

/-- The round loop of `find_sep_degrees`: collision check, then one side's
expansion, failing with `NotFound` the moment the round counter reaches 7.
The `fuel` argument only forces termination in Lean; every call below uses
fuel 7, which the counter check makes unreachable (`none` on exhaustion
would model the loop running forever, which cannot happen). -/
def sepLoop (src : Src) (t1 t2 : PublicKey) :
    Nat → Nat → SepState → Option (Except SepDegreeError (Nat × List PublicKey))
  | fuel, i, st =>
    match checkCollision t1 t2 st with
    | some r => r
    | none =>
      let stepped := stepRound src i st
      if stepped.current_distance = 7 then some (.error .NotFound)
      else
        match fuel with
        | 0 => none
        | f + 1 => sepLoop src t1 t2 f (if i = 1 then 2 else 1) stepped

/-- The search state entering the first round: both targets registered,
level 0 of each side mapping the target to itself, and the borders holding
the targets' fetched contact lists. -/
def initState (src : Src) (net : Network) (t1 t2 : PublicKey) : SepState :=
  { net := ((net.add_user t1).1.add_user t2).1,
    mutual_levels_1 := [[(t1, t1)]],
    mutual_levels_2 := [[(t2, t2)]],
    border1 := (src t1).getD [],
    border2 := (src t2).getD [],
    current_distance := 0 }

/-- Embeds `find_sep_degrees`: register the targets, fetch both targets' contact
lists — failing with `MissingContactList` for a target absent from the fetch
result — and run the alternating round loop. -/
def find_sep_degrees (src : Src) (net : Network) (t1 t2 : PublicKey) :
    Option (Except SepDegreeError (Nat × List PublicKey)) :=
  match src t1 with
  | none => some (.error (.MissingContactList t1))
  | some _ =>
    match src t2 with
    | none => some (.error (.MissingContactList t2))
    | some _ => sepLoop src t1 t2 7 1 (initState src net t1 t2)

/-- The loop state after `k` expansions of an uninterrupted run (side 1
expands at even `k`, side 2 at odd `k`, exactly as the loop alternates). -/
def stateAfter (src : Src) (net : Network) (t1 t2 : PublicKey) : Nat → SepState
  | 0 => initState src net t1 t2
  | k + 1 => stepRound src (if k % 2 = 0 then 1 else 2)
      (stateAfter src net t1 t2 k)

instance {ε α : Type} [DecidableEq ε] [DecidableEq α] :
    DecidableEq (Except ε α) := fun a b =>
  match a, b with
  | .error e1, .error e2 =>
    if h : e1 = e2 then isTrue (by rw [h]) else isFalse (by simp [h])
  | .ok a1, .ok a2 =>
    if h : a1 = a2 then isTrue (by rw [h]) else isFalse (by simp [h])
  | .error _, .ok _ => isFalse (by simp)
  | .ok _, .error _ => isFalse (by simp)

/-- Pairwise disjointness of the level sequence: no identity belongs to two
different levels. -/
def LevelsDisjoint (levels : List (List PublicKey)) : Prop :=
  levels.Pairwise fun l1 l2 => ∀ x, x ∈ l1 → x ∉ l2

instance (levels : List (List PublicKey)) : Decidable (LevelsDisjoint levels) := by
  unfold LevelsDisjoint
  infer_instance

/-! ### Concrete inputs used by witnesses and counterexamples -/

/-- A true mutual-follow chain `0 — 1 — … — 7` (each consecutive pair
follows each other), as a data source. -/
def chainSrc : Src := fun u =>
  if u = 0 then some [1]
  else if u = 7 then some [6]
  else if u ≤ 7 then some [u - 1, u + 1]
  else none

/-- The chain pre-merged into a graph (so every chain member already has a
recorded follow update and a complete contact list). -/
def chainNet : Network :=
  (List.range 8).foldl
    (fun n u => n.update_contact_list 0 u ((chainSrc u).getD [])) Network.new

/-- A triangle `0, 1, 2` of pairwise mutual follows plus an isolated `9`,
as a data source. -/
def dupSrc : Src := fun u =>
  if u = 0 then some [1, 2]
  else if u = 1 then some [0, 2]
  else if u = 2 then some [0, 1]
  else if u = 9 then some []
  else none

/-- The triangle pre-merged into a graph. -/
def dupNet : Network :=
  [0, 1, 2, 9].foldl
    (fun n u => n.update_contact_list 0 u ((dupSrc u).getD [])) Network.new

/-- A data source knowing nothing (used where fetches must not matter). -/
def c1Src : Src := fun _ => none

/-- A graph where identity `1` follows only `2` and already has a recorded
follow update. -/
def c1Net : Network := Network.new.update_contact_list 0 1 [2]

/-- A data source publishing only an empty contact list for identity `0`. -/
def selfSrc : Src := fun u => if u = 0 then some [] else none

/-- A ranking scenario: root `0`, level 1 `{1, 2}`, level 2 `{3}`, with both
`1` and `2` mutually following `3`. -/
def rankNet : Network :=
  ((Network.new.update_contact_list 0 1 [3]).update_contact_list 0 2
    [3]).update_contact_list 0 3 [1, 2]

/-- The builder state of the ranking scenario with three levels built. -/
def rankFn : FollowNetwork :=
  { net := rankNet, users_distances := [(0, 0), (1, 1), (2, 1), (3, 2)],
    levels := [[0], [1, 2], [3]] }

instance : IsTotal (PublicKey × Int × List RankReasons)
    fun a b => a.2.1 ≤ b.2.1 :=
  ⟨fun a b => le_total a.2.1 b.2.1⟩

instance : IsTrans (PublicKey × Int × List RankReasons)
    fun a b => a.2.1 ≤ b.2.1 :=
  ⟨fun _ _ _ h1 h2 => le_trans h1 h2⟩

/-! ### Theorems about the separation search -/

/-! ### Theorems about the NeighborhoodBuilder -/

/-! ### Theorems -/

theorem keyFind_keyInsert_self (k : Nat) (v : β) (m : List (Nat × β)) :
    keyFind k (keyInsert k v m) = some v := by
  simp [keyFind, keyInsert]

theorem keyFind_eq_none {k : Nat} {m : List (Nat × β)} :
    keyFind k m = none ↔ k ∉ keysOf m := by
  induction m with
  | nil => simp [keyFind, keysOf]
  | cons p rest ih =>
    obtain ⟨a, b⟩ := p
    by_cases h : a = k <;> simp [keyFind, keysOf, h, ih, Ne.symm, eq_comm] at *

theorem mem_of_keyFind_eq_some {k : Nat} {v : β} {m : List (Nat × β)}
    (h : keyFind k m = some v) : (k, v) ∈ m := by
  induction m with
  | nil => simp [keyFind] at h
  | cons p rest ih =>
    obtain ⟨a, b⟩ := p
    by_cases hak : a = k
    · subst hak
      simp [keyFind] at h
      simp [h]
    · simp [keyFind, hak] at h
      simpa using Or.inr (ih h)

theorem keyFind_eq_some_of_mem {k : Nat} {v : β} {m : List (Nat × β)}
    (hmem : (k, v) ∈ m) (hnd : (keysOf m).Nodup) : keyFind k m = some v := by
  induction m with
  | nil => simp at hmem
  | cons p rest ih =>
    obtain ⟨a, b⟩ := p
    simp [keysOf] at hnd
    rcases List.mem_cons.1 hmem with h | h
    · obtain ⟨h1, h2⟩ := Prod.mk.injEq .. ▸ h
      simp_all [keyFind]
    · have hne : a ≠ k := by
        rintro rfl
        exact hnd.1 v (by simpa using h)
      simp [keyFind, hne, ih h hnd.2]

theorem keyFind_mem_keysOf {k : Nat} {v : β} {m : List (Nat × β)}
    (h : keyFind k m = some v) : k ∈ keysOf m := by
  have := mem_of_keyFind_eq_some h
  exact List.mem_map.2 ⟨(k, v), this, rfl⟩

theorem intersectionRun_mem {it probe : List (Nat × β)} {parity : Bool}
    {k : Nat} {x y : β} (hit : (keysOf it).Nodup) :
    (k, x, y) ∈ intersectionRun it probe parity ↔
      (if parity then keyFind k probe = some x ∧ keyFind k it = some y
       else keyFind k it = some x ∧ keyFind k probe = some y) := by
  constructor
  · intro h
    obtain ⟨⟨a, b⟩, hmem, heq⟩ := List.mem_filterMap.1 h
    rcases hfind : keyFind a probe with _ | v2 <;> simp [hfind] at heq
    cases parity <;> simp at heq <;>
      obtain ⟨rfl, rfl, rfl⟩ := heq <;>
      simp_all [keyFind_eq_some_of_mem hmem hit]
  · intro h
    cases parity <;> simp at h
    · exact List.mem_filterMap.2 ⟨(k, x), mem_of_keyFind_eq_some h.1, by simp [h.2]⟩
    · exact List.mem_filterMap.2 ⟨(k, y), mem_of_keyFind_eq_some h.2, by simp [h.1]⟩

theorem intersectionRun_keys_sublist (it probe : List (Nat × β)) (parity : Bool) :
    ((intersectionRun it probe parity).map Prod.fst).Sublist (keysOf it) := by
  induction it with
  | nil => simp [intersectionRun]
  | cons p rest ih =>
    obtain ⟨a, b⟩ := p
    rcases hfind : keyFind a probe with _ | v2
    · have : intersectionRun ((a, b) :: rest) probe parity =
          intersectionRun rest probe parity := by
        simp [intersectionRun, List.filterMap_cons, hfind]
      rw [this]
      exact ih.trans (by simp [keysOf])
    · have : intersectionRun ((a, b) :: rest) probe parity =
          (if parity then (a, v2, b) else (a, b, v2)) :: intersectionRun rest probe parity := by
        simp [intersectionRun, List.filterMap_cons, hfind]
      rw [this]
      cases parity <;> simpa [keysOf] using ih.cons_cons a

/-- C3: for every pair of mappings `A` and `B` over the same key type,
`intersection_map A B` yields exactly one triple per key in
`keys A ∩ keys B` and nothing else, with no duplicate keys, and each triple
pairs the key with (value-from-`A`, value-from-`B`) in that order regardless
of whether `A` or `B` was the smaller, internally iterated side. -/
theorem intersection_map_spec (A B : List (Nat × β))
    (hA : (keysOf A).Nodup) (hB : (keysOf B).Nodup) :
    (∀ k x y, (k, x, y) ∈ intersection_map A B ↔
        keyFind k A = some x ∧ keyFind k B = some y)
    ∧ ((intersection_map A B).map Prod.fst).Nodup := by
  unfold intersection_map
  split
  · refine ⟨fun k x y => ?_,
      List.Nodup.sublist (intersectionRun_keys_sublist A B false) hA⟩
    simpa using @intersectionRun_mem _ A B false k x y hA
  · refine ⟨fun k x y => ?_,
      List.Nodup.sublist (intersectionRun_keys_sublist B A true) hB⟩
    simpa using @intersectionRun_mem _ B A true k x y hB

/-- Witness for `intersection_map_spec` at concrete mappings. -/
theorem intersection_map_spec_witness :
    (keysOf [(1, 10), (2, 20)]).Nodup ∧ (keysOf [(2, 5), (3, 6), (4, 7)]).Nodup ∧
      (((2 : Nat), (20 : Nat), (5 : Nat)) ∈
          intersection_map [(1, 10), (2, 20)] [(2, 5), (3, 6), (4, 7)] ↔
        keyFind 2 [(1, 10), (2, 20)] = some 20 ∧
          keyFind 2 [(2, 5), (3, 6), (4, 7)] = some 5) :=
  ⟨by decide, by decide,
    (intersection_map_spec [(1, 10), (2, 20)] [(2, 5), (3, 6), (4, 7)]
      (by decide) (by decide)).1 2 20 5⟩

theorem findFirstIdx_isSome_iff {p : α → Bool} {l : List α} :
    (findFirstIdx p l).isSome ↔ ∃ x ∈ l, p x := by
  induction l with
  | nil => simp [findFirstIdx]
  | cons a l ih =>
    by_cases h : p a <;> simp [findFirstIdx, h, ih]

theorem findFirstIdx_eq_none_iff {p : α → Bool} {l : List α} :
    findFirstIdx p l = none ↔ ∀ x ∈ l, ¬p x := by
  rw [← Option.not_isSome_iff_eq_none]
  simp [findFirstIdx_isSome_iff]

theorem findFirstIdx_append {p : α → Bool} {l l' : List α} :
    findFirstIdx p (l ++ l') =
      match findFirstIdx p l with
      | some i => some i
      | none => (findFirstIdx p l').map (· + l.length) := by
  induction l with
  | nil => simp [findFirstIdx]
  | cons a l ih =>
    by_cases h : p a
    · simp [findFirstIdx, h]
    · rcases hfl : findFirstIdx p l with _ | i
      · have ih' : findFirstIdx p (l ++ l') = (findFirstIdx p l').map (· + l.length) := by
          rw [ih, hfl]
        rcases hfl' : findFirstIdx p l' with _ | j <;>
          simp [List.cons_append, findFirstIdx, h, ih', hfl', hfl, Nat.add_comm,
            Nat.add_assoc, Nat.add_left_comm]
      · have ih' : findFirstIdx p (l ++ l') = some i := by rw [ih, hfl]
        simp [List.cons_append, findFirstIdx, h, ih', hfl]

namespace Network

theorem followsTo_congr {n1 n2 : Network} (h : n1.edges = n2.edges)
    (u v : PublicKey) : n1.followsTo u v ↔ n2.followsTo u v := by
  unfold followsTo
  rw [h]

theorem get_following_edge_congr {n1 n2 : Network} (h : n1.edges = n2.edges)
    (u v : PublicKey) : n1.get_following_edge u v = n2.get_following_edge u v := by
  unfold get_following_edge
  rw [h]

theorem get_following_edge_isSome_iff {net : Network} {u v : PublicKey} :
    (net.get_following_edge u v).isSome ↔ net.followsTo u v := by
  unfold get_following_edge
  rw [findFirstIdx_isSome_iff]
  constructor
  · rintro ⟨⟨a, b, k⟩, hmem, hp⟩
    cases k
    simp only [decide_eq_true_eq] at hp
    obtain ⟨rfl, rfl, -⟩ := hp
    exact hmem
  · intro h
    exact ⟨_, h, by simp⟩

theorem get_following_edge_eq_none_iff {net : Network} {u v : PublicKey} :
    net.get_following_edge u v = none ↔ ¬net.followsTo u v := by
  rw [← Option.not_isSome_iff_eq_none, not_iff_not, get_following_edge_isSome_iff]

theorem is_following_iff {net : Network} {u v : PublicKey} :
    net.is_following u v = true ↔ net.followsTo u v := by
  unfold is_following
  exact get_following_edge_isSome_iff

theorem pubkey_to_node_eq_none_iff {net : Network} {u : PublicKey} :
    net.pubkey_to_node u = none ↔ u ∉ net.nodes := by
  unfold pubkey_to_node
  rw [findFirstIdx_eq_none_iff]
  constructor
  · intro h hu
    exact (by simpa using h u hu)
  · intro h x hx hp
    simp only [decide_eq_true_eq] at hp
    exact h (hp ▸ hx)

theorem add_user_fst_edges (net : Network) (u : PublicKey) :
    (net.add_user u).1.edges = net.edges := by
  unfold add_user
  split <;> rfl

theorem add_user_fst_metadata (net : Network) (u : PublicKey) :
    (net.add_user u).1.users_metadata = net.users_metadata := by
  unfold add_user
  split <;> rfl

theorem add_user_fst_added_out (net : Network) (u : PublicKey) :
    (net.add_user u).1.added_out_edges = net.added_out_edges := by
  unfold add_user
  split <;> rfl

theorem mem_add_user_fst_nodes {net : Network} {u x : PublicKey} :
    x ∈ (net.add_user u).1.nodes ↔ x ∈ net.nodes ∨ x = u := by
  unfold add_user
  by_cases h : u ∈ net.nodes
  · rw [if_pos h]
    exact ⟨Or.inl, fun hc => hc.elim id fun hx => hx ▸ h⟩
  · rw [if_neg h]
    simp

theorem add_follow_fst_edges (net : Network) (now : Timestamp) (u v : PublicKey) :
    (net.add_follow now u v).1.edges =
      if net.followsTo u v then net.edges
      else net.edges ++ [(u, v, EdgeKind.Following)] := by
  unfold add_follow add_follow_nodes
  have hedges : (((net.add_user u).1.add_user v).1).edges = net.edges := by
    rw [add_user_fst_edges, add_user_fst_edges]
  rcases hge : (((net.add_user u).1.add_user v).1).get_following_edge u v with _ | i
  · have hnf : ¬net.followsTo u v := fun hf =>
      (get_following_edge_eq_none_iff.1 hge) ((followsTo_congr hedges u v).2 hf)
    simp [hge, hedges, hnf]
  · have hf : net.followsTo u v :=
      (followsTo_congr hedges u v).1
        (get_following_edge_isSome_iff.1 (by simp [hge]))
    simp [hge, hedges, hf]

theorem add_follow_fst_added_out (net : Network) (now : Timestamp) (u v : PublicKey) :
    (net.add_follow now u v).1.added_out_edges =
      if net.followsTo u v then net.added_out_edges
      else keyInsert u now net.added_out_edges := by
  unfold add_follow add_follow_nodes
  have hedges : (((net.add_user u).1.add_user v).1).edges = net.edges := by
    rw [add_user_fst_edges, add_user_fst_edges]
  have hout : (((net.add_user u).1.add_user v).1).added_out_edges =
      net.added_out_edges := by
    rw [add_user_fst_added_out, add_user_fst_added_out]
  rcases hge : (((net.add_user u).1.add_user v).1).get_following_edge u v with _ | i
  · have hnf : ¬net.followsTo u v := fun hf =>
      (get_following_edge_eq_none_iff.1 hge) ((followsTo_congr hedges u v).2 hf)
    simp [hge, hout, hnf]
  · have hf : net.followsTo u v :=
      (followsTo_congr hedges u v).1
        (get_following_edge_isSome_iff.1 (by simp [hge]))
    simp [hge, hout, hf]

theorem add_follow_fst_metadata (net : Network) (now : Timestamp) (u v : PublicKey) :
    (net.add_follow now u v).1.users_metadata = net.users_metadata := by
  unfold add_follow add_follow_nodes
  rcases hge : (((net.add_user u).1.add_user v).1).get_following_edge u v with _ | i <;>
    simp [hge, add_user_fst_metadata]

theorem mem_add_follow_fst_nodes {net : Network} {now : Timestamp} {u v x : PublicKey} :
    x ∈ (net.add_follow now u v).1.nodes ↔ x ∈ net.nodes ∨ x = u ∨ x = v := by
  unfold add_follow add_follow_nodes
  rcases hge : (((net.add_user u).1.add_user v).1).get_following_edge u v with _ | i <;>
    simp [hge, mem_add_user_fst_nodes, or_assoc]

theorem followsTo_add_follow {net : Network} {now : Timestamp} {u v x y : PublicKey} :
    (net.add_follow now u v).1.followsTo x y ↔
      net.followsTo x y ∨ (x = u ∧ y = v) := by
  unfold followsTo
  rw [add_follow_fst_edges]
  by_cases h : net.followsTo u v
  · rw [if_pos h]
    exact ⟨Or.inl, fun hc => hc.elim id fun ⟨hx, hy⟩ => hx ▸ hy ▸ h⟩
  · rw [if_neg h]
    simp [List.mem_append]

theorem remove_contact_list_followsTo {net : Network} {u x y : PublicKey} :
    (net.remove_contact_list u).followsTo x y ↔
      net.followsTo x y ∧ (u ∈ net.nodes → x ≠ u) := by
  unfold remove_contact_list add_user
  by_cases h : u ∈ net.nodes
  · rw [if_pos h]
    simp only [if_neg (by simp : ¬(false = true))]
    unfold followsTo
    simp only [List.mem_filter]
    constructor
    · rintro ⟨hmem, hp⟩
      refine ⟨hmem, fun _ hxu => ?_⟩
      simp [hxu] at hp
    · rintro ⟨hmem, hxu⟩
      exact ⟨hmem, by simp [hxu h]⟩
  · rw [if_neg h]
    simp only [if_pos rfl]
    unfold followsTo
    exact ⟨fun hm => ⟨hm, fun hu => absurd hu h⟩, fun hc => hc.1⟩

theorem remove_contact_list_added_out (net : Network) (u : PublicKey) :
    (net.remove_contact_list u).added_out_edges = net.added_out_edges := by
  unfold remove_contact_list add_user
  by_cases h : u ∈ net.nodes <;> simp [h]

theorem remove_contact_list_metadata (net : Network) (u : PublicKey) :
    (net.remove_contact_list u).users_metadata = net.users_metadata := by
  unfold remove_contact_list add_user
  by_cases h : u ∈ net.nodes <;> simp [h]

theorem mem_remove_contact_list_nodes {net : Network} {u x : PublicKey} :
    x ∈ (net.remove_contact_list u).nodes ↔ x ∈ net.nodes ∨ x = u := by
  unfold remove_contact_list add_user
  by_cases h : u ∈ net.nodes
  · rw [if_pos h]
    simp only [if_neg (by simp : ¬(false = true))]
    exact ⟨Or.inl, fun hc => hc.elim id fun hx => hx ▸ h⟩
  · rw [if_neg h]
    simp

theorem mem_get_user_contacts_iff {net : Network} {u x : PublicKey}
    (hu : u ∈ net.nodes) :
    x ∈ net.get_user_contacts u ↔ net.followsTo u x := by
  unfold get_user_contacts
  rw [if_neg (by simpa using hu)]
  simp only [List.mem_map, List.mem_filter, decide_eq_true_eq]
  constructor
  · rintro ⟨⟨a, b, k⟩, ⟨hmem, ha, hk⟩, hb⟩
    cases k
    simp only at ha hb
    subst ha hb
    exact hmem
  · intro h
    exact ⟨(u, x, EdgeKind.Following), ⟨h, by simp⟩, rfl⟩

/-- State evolution of the contact-adding loop of `update_contact_list`. -/
theorem foldl_add_follow_followsTo (now : Timestamp) (u : PublicKey)
    (C : List PublicKey) :
    ∀ (n : Network) (x y : PublicKey),
      (C.foldl (fun n c => (n.add_follow now u c).1) n).followsTo x y ↔
        n.followsTo x y ∨ (x = u ∧ y ∈ C) := by
  induction C with
  | nil => simp
  | cons c C ih =>
    intro n x y
    rw [List.foldl_cons, ih, followsTo_add_follow, List.mem_cons]
    tauto

theorem foldl_add_follow_metadata (now : Timestamp) (u : PublicKey)
    (C : List PublicKey) :
    ∀ n : Network,
      (C.foldl (fun n c => (n.add_follow now u c).1) n).users_metadata =
        n.users_metadata := by
  induction C with
  | nil => simp
  | cons c C ih =>
    intro n
    rw [List.foldl_cons, ih, add_follow_fst_metadata]

theorem foldl_add_follow_nodes_mono (now : Timestamp) (u : PublicKey)
    (C : List PublicKey) :
    ∀ (n : Network) (x : PublicKey), x ∈ n.nodes →
      x ∈ (C.foldl (fun n c => (n.add_follow now u c).1) n).nodes := by
  induction C with
  | nil => simp
  | cons c C ih =>
    intro n x hx
    rw [List.foldl_cons]
    exact ih _ x (mem_add_follow_fst_nodes.2 (Or.inl hx))

/-- Unfolding of `update_contact_list` into its two phases: clear the old
contact list (or just register a fresh user), then add one follow edge per
contact. -/
theorem update_contact_list_eq (net : Network) (now : Timestamp) (u : PublicKey)
    (C : List PublicKey) :
    net.update_contact_list now u C =
      C.foldl (fun n c => (n.add_follow now u c).1)
        (if u ∈ net.nodes then net.remove_contact_list u
         else { net with nodes := net.nodes ++ [u] }) := by
  unfold Network.update_contact_list
  by_cases hin : u ∈ net.nodes
  · rw [if_pos hin,
      show net.add_user u = (net, false) from by simp [Network.add_user, hin]]
    exact rfl
  · rw [if_neg hin,
      show net.add_user u = ({ net with nodes := net.nodes ++ [u] }, true) from by
        simp [Network.add_user, hin]]
    exact rfl

theorem update_contact_list_followsTo {net : Network} {now : Timestamp}
    {u : PublicKey} {C : List PublicKey} (hwf : net.Wf) (x y : PublicKey) :
    (net.update_contact_list now u C).followsTo x y ↔
      (net.followsTo x y ∧ x ≠ u) ∨ (x = u ∧ y ∈ C) := by
  rw [update_contact_list_eq, foldl_add_follow_followsTo]
  by_cases hin : u ∈ net.nodes
  · rw [if_pos hin]
    rw [remove_contact_list_followsTo]
    constructor
    · rintro (⟨hf, hne⟩ | h)
      · exact Or.inl ⟨hf, hne hin⟩
      · exact Or.inr h
    · rintro (⟨hf, hne⟩ | h)
      · exact Or.inl ⟨hf, fun _ => hne⟩
      · exact Or.inr h
  · rw [if_neg hin]
    have hsame : ({ net with nodes := net.nodes ++ [u] } : Network).followsTo x y ↔
        net.followsTo x y := Iff.rfl
    rw [hsame]
    constructor
    · rintro (hf | h)
      · refine Or.inl ⟨hf, ?_⟩
        rintro rfl
        exact hin (hwf _ hf).1
      · exact Or.inr h
    · rintro (⟨hf, _⟩ | h)
      · exact Or.inl hf
      · exact Or.inr h

theorem update_contact_list_followsTo_ne {net : Network} {now : Timestamp}
    {u : PublicKey} {C : List PublicKey} {x y : PublicKey} (hne : x ≠ u) :
    (net.update_contact_list now u C).followsTo x y ↔ net.followsTo x y := by
  rw [update_contact_list_eq, foldl_add_follow_followsTo]
  by_cases hin : u ∈ net.nodes
  · rw [if_pos hin, remove_contact_list_followsTo]
    constructor
    · rintro (⟨hf, -⟩ | ⟨hxu, -⟩)
      · exact hf
      · exact absurd hxu hne
    · intro hf
      exact Or.inl ⟨hf, fun _ => hne⟩
  · rw [if_neg hin]
    have hsame : ({ net with nodes := net.nodes ++ [u] } : Network).followsTo x y ↔
        net.followsTo x y := Iff.rfl
    rw [hsame]
    constructor
    · rintro (hf | ⟨hxu, -⟩)
      · exact hf
      · exact absurd hxu hne
    · exact Or.inl

theorem self_mem_update_contact_list_nodes (net : Network) (now : Timestamp)
    (u : PublicKey) (C : List PublicKey) :
    u ∈ (net.update_contact_list now u C).nodes := by
  rw [update_contact_list_eq]
  by_cases hin : u ∈ net.nodes
  · rw [if_pos hin]
    exact foldl_add_follow_nodes_mono now u C _ u
      (mem_remove_contact_list_nodes.2 (Or.inr rfl))
  · rw [if_neg hin]
    exact foldl_add_follow_nodes_mono now u C _ u (by simp)

theorem update_contact_list_metadata (net : Network) (now : Timestamp)
    (u : PublicKey) (C : List PublicKey) :
    (net.update_contact_list now u C).users_metadata = net.users_metadata := by
  rw [update_contact_list_eq, foldl_add_follow_metadata]
  by_cases hin : u ∈ net.nodes
  · rw [if_pos hin, remove_contact_list_metadata]
  · rw [if_neg hin]

end Network

/-- C2: for every graph state, identity `u` and contact collection `C`,
after `update_contact_list u C` returns, `get_user_contacts u` yields
exactly the set of members of `C`: a key is an outgoing contact of `u`
afterwards if and only if it is a member of `C`, so no outgoing follow edge
of `u` created by any earlier call survives.  The hypothesis is the
well-formedness invariant every reachable graph state satisfies (edges only
ever join registered nodes). -/
theorem update_contact_list_exact (net : Network) (now : Timestamp)
    (u : PublicKey) (C : List PublicKey) (hwf : net.Wf) (x : PublicKey) :
    x ∈ (net.update_contact_list now u C).get_user_contacts u ↔ x ∈ C := by
  rw [Network.mem_get_user_contacts_iff
    (Network.self_mem_update_contact_list_nodes net now u C),
    Network.update_contact_list_followsTo hwf]
  simp

/-- Witness for `update_contact_list_exact` at a concrete state. -/
theorem update_contact_list_exact_witness :
    Network.new.Wf ∧
      (2 ∈ (Network.new.update_contact_list 0 1 [1, 2]).get_user_contacts 1 ↔
        2 ∈ [1, 2]) :=
  ⟨by decide, update_contact_list_exact Network.new 0 1 [1, 2] (by decide) 2⟩

/-- C10: `update_contact_list u C` modifies only `u`'s outgoing follow
edges (plus `u`'s node-existence and last-follow-update bookkeeping): every
follow edge whose source is an identity other than `u` — in particular every
incoming follow edge of `u` — and every identity's profile metadata entry is
exactly the same after the call as before it. -/
theorem update_contact_list_frame (net : Network) (now : Timestamp)
    (u : PublicKey) (C : List PublicKey) (a b : PublicKey) (hne : a ≠ u) :
    (net.update_contact_list now u C).is_following a b = net.is_following a b ∧
      (net.update_contact_list now u C).users_metadata = net.users_metadata := by
  constructor
  · rw [Bool.eq_iff_iff, Network.is_following_iff, Network.is_following_iff]
    exact Network.update_contact_list_followsTo_ne hne
  · exact Network.update_contact_list_metadata net now u C

/-- Witness for `update_contact_list_frame` at a concrete state. -/
theorem update_contact_list_frame_witness :
    (3 : PublicKey) ≠ 1 ∧
      ((Network.new.update_contact_list 0 1 [2]).is_following 3 4 =
          Network.new.is_following 3 4 ∧
        (Network.new.update_contact_list 0 1 [2]).users_metadata =
          Network.new.users_metadata) :=
  ⟨by decide, update_contact_list_frame Network.new 0 1 [2] 3 4 (by decide)⟩

namespace Network

theorem add_user_of_mem {net : Network} {u : PublicKey} (h : u ∈ net.nodes) :
    net.add_user u = (net, false) := by
  simp [Network.add_user, h]

theorem add_user_pair_of_mem {net : Network} {u v : PublicKey}
    (hu : u ∈ net.nodes) (hv : v ∈ net.nodes) :
    ((net.add_user u).1.add_user v).1 = net := by
  have h1 : (net.add_user u).1 = net := by rw [add_user_of_mem hu]
  rw [h1]
  rw [add_user_of_mem hv]

theorem add_follow_of_some {net : Network} {now : Timestamp} {u v : PublicKey}
    {i : Nat} (hge : net.get_following_edge u v = some i) :
    net.add_follow now u v = (((net.add_user u).1.add_user v).1, i) := by
  show (((net.add_user u).1.add_user v).1).add_follow_nodes now u v = _
  have h2 : (((net.add_user u).1.add_user v).1).get_following_edge u v = some i := by
    rw [get_following_edge_congr
      (show (((net.add_user u).1.add_user v).1).edges = net.edges by
        rw [add_user_fst_edges, add_user_fst_edges]) u v, hge]
  unfold add_follow_nodes
  rw [h2]

theorem add_follow_of_none {net : Network} {now : Timestamp} {u v : PublicKey}
    (hge : net.get_following_edge u v = none) :
    net.add_follow now u v =
      ({ ((net.add_user u).1.add_user v).1 with
          added_out_edges :=
            keyInsert u now (((net.add_user u).1.add_user v).1).added_out_edges,
          edges := (((net.add_user u).1.add_user v).1).edges ++
            [(u, v, EdgeKind.Following)] },
        (((net.add_user u).1.add_user v).1).edges.length) := by
  show (((net.add_user u).1.add_user v).1).add_follow_nodes now u v = _
  have h2 : (((net.add_user u).1.add_user v).1).get_following_edge u v = none := by
    rw [get_following_edge_congr
      (show (((net.add_user u).1.add_user v).1).edges = net.edges by
        rw [add_user_fst_edges, add_user_fst_edges]) u v, hge]
  unfold add_follow_nodes
  rw [h2]

/-- After any `add_follow` call, looking the pair up again finds exactly the
handle that call returned. -/
theorem get_following_edge_add_follow_self (net : Network) (now : Timestamp)
    (u v : PublicKey) :
    (net.add_follow now u v).1.get_following_edge u v =
      some ((net.add_follow now u v).2) := by
  rcases hge : net.get_following_edge u v with _ | i
  · rw [add_follow_of_none hge]
    show findFirstIdx _ ((((net.add_user u).1.add_user v).1).edges ++
      [(u, v, EdgeKind.Following)]) = _
    rw [findFirstIdx_append]
    have h2 : findFirstIdx
        (fun e => e.1 = u ∧ e.2.1 = v ∧ e.2.2 = EdgeKind.Following)
        (((net.add_user u).1.add_user v).1).edges = none := by
      show (((net.add_user u).1.add_user v).1).get_following_edge u v = none
      rw [get_following_edge_congr
        (show (((net.add_user u).1.add_user v).1).edges = net.edges by
          rw [add_user_fst_edges, add_user_fst_edges]) u v, hge]
    rw [h2]
    simp [findFirstIdx]
  · rw [add_follow_of_some hge]
    show (((net.add_user u).1.add_user v).1).get_following_edge u v = some i
    rw [get_following_edge_congr
      (show (((net.add_user u).1.add_user v).1).edges = net.edges by
        rw [add_user_fst_edges, add_user_fst_edges]) u v, hge]

end Network

/-- C8 (amended): `add_follow(u, v)` is idempotent per ordered pair — calling
it again is a complete no-op that returns the same state and the existing
edge handle — and `u`'s last-follow-update timestamp is recorded exactly
when the edge `(u → v)` did not exist before the call; a call that finds the
edge already present leaves the timestamp (and everything else) unchanged,
contrary to the claim's "including calls where the edge already existed". -/
theorem add_follow_spec (net : Network) (t1 t2 : Timestamp) (u v : PublicKey) :
    (net.add_follow t1 u v).1.add_follow t2 u v = net.add_follow t1 u v ∧
      (net.add_follow t1 u v).1.does_user_follow u =
        (if net.get_following_edge u v = none then some t1
         else net.does_user_follow u) := by
  constructor
  · have hu : u ∈ (net.add_follow t1 u v).1.nodes :=
      Network.mem_add_follow_fst_nodes.2 (Or.inr (Or.inl rfl))
    have hv : v ∈ (net.add_follow t1 u v).1.nodes :=
      Network.mem_add_follow_fst_nodes.2 (Or.inr (Or.inr rfl))
    calc (net.add_follow t1 u v).1.add_follow t2 u v
        = ((((net.add_follow t1 u v).1.add_user u).1.add_user v).1,
            (net.add_follow t1 u v).2) :=
          Network.add_follow_of_some
            (Network.get_following_edge_add_follow_self net t1 u v)
      _ = ((net.add_follow t1 u v).1, (net.add_follow t1 u v).2) := by
          rw [Network.add_user_pair_of_mem hu hv]
      _ = net.add_follow t1 u v := rfl
  · unfold Network.does_user_follow
    rw [Network.add_follow_fst_added_out]
    by_cases h : net.followsTo u v
    · rw [if_pos h, if_neg (fun hn =>
        (Network.get_following_edge_eq_none_iff.1 hn) h)]
    · rw [if_neg h, if_pos (Network.get_following_edge_eq_none_iff.2 h),
        keyFind_keyInsert_self]

/-- Counterexample to C8 as stated: with the edge `1 → 2` created at time
`0`, a second `add_follow` call at time `5` does not refresh the
last-follow-update timestamp of `1` — `does_user_follow` still reports the
original time `0`, not `5`. -/
theorem add_follow_no_refresh_counterexample :
    ((Network.new.add_follow 0 1 2).1.add_follow 5 1 2).1.does_user_follow 1 =
        some 0 ∧
      ((Network.new.add_follow 0 1 2).1.add_follow 5 1 2).1.does_user_follow 1 ≠
        some 5 := by
  decide

/-- C7 (amended): `get_user_contacts`, `get_user_mutuals` and
`get_pubkey_metadata` return an empty or `none` result on unknown
identities, but `are_users_mutuals` aborts (an `unwrap` of
`pubkey_to_node`, modelled by the `none` result) whenever either argument
was never added to the graph. -/
theorem unknown_identity_query_spec (net : Network) (u v : PublicKey)
    (hu : u ∉ net.nodes)
    (hm : keyFind u net.users_metadata = none ∨
      keyFind u net.users_metadata = some none) :
    net.get_user_contacts u = [] ∧ net.get_user_mutuals u = [] ∧
      net.are_users_mutuals u v = none ∧ net.are_users_mutuals v u = none ∧
      net.get_pubkey_metadata u = none := by
  refine ⟨?_, ?_, ?_, ?_, ?_⟩
  · unfold Network.get_user_contacts
    rw [if_pos hu]
  · unfold Network.get_user_mutuals
    rw [if_pos hu]
  · unfold Network.are_users_mutuals
    rw [Network.pubkey_to_node_eq_none_iff.2 hu]
    rfl
  · unfold Network.are_users_mutuals
    rcases hvn : net.pubkey_to_node v with _ | i
    · rfl
    · rw [Network.pubkey_to_node_eq_none_iff.2 hu]
      rfl
  · unfold Network.get_pubkey_metadata
    rcases hm with hm | hm <;> rw [hm]

/-- Witness for `unknown_identity_query_spec` on the empty graph. -/
theorem unknown_identity_query_spec_witness :
    ((0 : PublicKey) ∉ Network.new.nodes) ∧
      (keyFind 0 Network.new.users_metadata = none ∨
        keyFind 0 Network.new.users_metadata = some none) ∧
      (Network.new.get_user_contacts 0 = [] ∧
        Network.new.get_user_mutuals 0 = [] ∧
        Network.new.are_users_mutuals 0 1 = none ∧
        Network.new.are_users_mutuals 1 0 = none ∧
        Network.new.get_pubkey_metadata 0 = none) :=
  ⟨by decide, by decide,
    unknown_identity_query_spec Network.new 0 1 (by decide) (by decide)⟩

/-- Counterexample to C7 as stated: `are_users_mutuals` on the empty graph
hits `pubkey_to_node(..).unwrap()` with `pubkey_to_node` returning no node,
so the call aborts (modelled by the `none` result) instead of returning a
boolean. -/
theorem are_users_mutuals_abort_counterexample :
    Network.new.pubkey_to_node 0 = none ∧
      Network.new.are_users_mutuals 0 1 = none :=
  ⟨rfl, rfl⟩

/-- C6: if the contact list of either target of `find_sep_degrees` cannot
be obtained from the data source at all (the target is absent from the
fetch result), the search fails immediately with `MissingContactList`
naming that target — no complete or truncated path is returned. -/
theorem find_sep_degrees_missing_contact_list (src : Src) (net : Network)
    (t1 t2 : PublicKey) :
    (src t1 = none →
      find_sep_degrees src net t1 t2 =
        some (.error (.MissingContactList t1))) ∧
    (∀ l, src t1 = some l → src t2 = none →
      find_sep_degrees src net t1 t2 =
        some (.error (.MissingContactList t2))) := by
  constructor
  · intro h
    unfold find_sep_degrees
    rw [h]
  · intro l h1 h2
    unfold find_sep_degrees
    rw [h1, h2]

/-- Witness for `find_sep_degrees_missing_contact_list`: an unpublished
first target, and an unpublished second target behind a published first. -/
theorem find_sep_degrees_missing_contact_list_witness :
    (selfSrc 1 = none ∧
      find_sep_degrees selfSrc Network.new 1 2 =
        some (.error (.MissingContactList 1))) ∧
    (selfSrc 0 = some [] ∧ selfSrc 1 = none ∧
      find_sep_degrees selfSrc Network.new 0 1 =
        some (.error (.MissingContactList 1))) :=
  ⟨⟨rfl, (find_sep_degrees_missing_contact_list selfSrc Network.new 1 2).1 rfl⟩,
    ⟨rfl, rfl,
      (find_sep_degrees_missing_contact_list selfSrc Network.new 0 1).2 [] rfl rfl⟩⟩

/-- Every result a collision check returns carries the round count at which
the check ran. -/
theorem checkCollision_ok_dist {t1 t2 : PublicKey} {st : SepState} {n : Nat}
    {p : List PublicKey}
    (h : checkCollision t1 t2 st = some (some (.ok (n, p)))) :
    n = st.current_distance := by
  unfold checkCollision at h
  rcases hI : intersection_map (st.mutual_levels_1.getLastD [])
      (st.mutual_levels_2.getLastD []) with _ | ⟨⟨m, b1, b2⟩, rest⟩ <;>
    rw [hI] at h
  · exact absurd h (by simp)
  · simp only [Option.some.injEq] at h
    rcases hd : st.current_distance with _ | _ | _ | k <;> rw [hd] at h
    · split at h <;> simp_all
    · split at h <;> simp_all
    · split at h <;> simp_all
    · rcases hw1 : backtrackWalk t1 st.mutual_levels_1
          (st.mutual_levels_1.length - 2) b1 with _ | bt1 <;>
        rcases hw2 : backtrackWalk t2 st.mutual_levels_2
          (st.mutual_levels_2.length - 2) b2 with _ | bt2 <;>
        rw [hw1, hw2] at h <;> simp_all

theorem stepRound_dist (src : Src) (i : Nat) (st : SepState) :
    (stepRound src i st).current_distance = st.current_distance + 1 := by
  unfold stepRound
  by_cases h : i = 1 <;> simp [h]

/-- Any successful result the round loop can produce from a round count of
at most 6 reports a distance of at most 6: the loop fails with `NotFound`
the moment the counter reaches 7, before the round-7 collision check. -/
theorem sepLoop_ok_le_six (src : Src) (t1 t2 : PublicKey) :
    ∀ (fuel i : Nat) (st : SepState), st.current_distance ≤ 6 →
      ∀ n p, sepLoop src t1 t2 fuel i st = some (.ok (n, p)) → n ≤ 6 := by
  intro fuel
  induction fuel with
  | zero =>
    intro i st hle n p h
    unfold sepLoop at h
    rcases hc : checkCollision t1 t2 st with _ | r <;> rw [hc] at h
    · split at h <;> simp_all
    · subst h
      have := checkCollision_ok_dist hc
      omega
  | succ f ih =>
    intro i st hle n p h
    unfold sepLoop at h
    rcases hc : checkCollision t1 t2 st with _ | r <;> rw [hc] at h
    · by_cases h7 : (stepRound src i st).current_distance = 7
      · rw [if_pos h7] at h
        simp at h
      · rw [if_neg h7] at h
        have hstep := stepRound_dist src i st
        exact ih _ _ (by omega) n p h
    · subst h
      have := checkCollision_ok_dist hc
      omega

/-- C5 (amended): the round counter increments after each side's expansion
and the search fails with `NotFound` as soon as the counter reaches the cap
of 7, without performing the collision check of that round: every
successful result reports a distance of at most 6, and a collision first
appearing at round count 7 — the cap itself — is not detected (see the
counterexample). -/
theorem find_sep_degrees_distance_le_six (src : Src) (net : Network)
    (t1 t2 : PublicKey) (n : Nat) (p : List PublicKey)
    (h : find_sep_degrees src net t1 t2 = some (.ok (n, p))) : n ≤ 6 := by
  unfold find_sep_degrees at h
  rcases h1 : src t1 with _ | l1 <;> rw [h1] at h
  · simp at h
  · rcases h2 : src t2 with _ | l2 <;> rw [h2] at h
    · simp at h
    · exact sepLoop_ok_le_six src t1 t2 7 1 _ (Nat.zero_le 6) n p h

/-- Witness for `find_sep_degrees_distance_le_six`: the self-pair search
returns distance 0. -/
theorem find_sep_degrees_distance_le_six_witness :
    find_sep_degrees selfSrc Network.new 0 0 = some (.ok (0, [0])) ∧ 0 ≤ 6 :=
  ⟨rfl, find_sep_degrees_distance_le_six selfSrc Network.new 0 0 0 [0] rfl⟩

/-- Counterexample to C5 as stated: on a true mutual chain of length 7 the
search returns `NotFound` even though the round counter never exceeds the
cap — a collision is present in the two most recent level maps after the
7th expansion (the meeting identity 4 with backpointers 3 and 5), but the
loop never performs the collision check at round count 7. -/
theorem sep_cap_counterexample :
    find_sep_degrees chainSrc chainNet 0 7 =
        some (.error SepDegreeError.NotFound) ∧
      intersection_map
        ((stateAfter chainSrc chainNet 0 7 7).mutual_levels_1.getLastD [])
        ((stateAfter chainSrc chainNet 0 7 7).mutual_levels_2.getLastD []) =
        [(4, 3, 5)] ∧
      ((List.range 7).map fun k =>
        checkCollision 0 7 (stateAfter chainSrc chainNet 0 7 k)) =
        List.replicate 7 none :=
  ⟨rfl, rfl, rfl⟩

theorem keyFind_cons (k a : Nat) (b : β) (rest : List (Nat × β)) :
    keyFind k ((a, b) :: rest) = if a = k then some b else keyFind k rest := rfl

theorem keyFind_filter_key_ne {u w : Nat} (hne : u ≠ w) (m : List (Nat × β)) :
    keyFind u (m.filter fun p => p.1 ≠ w) = keyFind u m := by
  induction m with
  | nil => rfl
  | cons p rest ih =>
    obtain ⟨a, b⟩ := p
    by_cases haw : a = w
    · rw [List.filter_cons_of_neg (by simp [haw]), ih, keyFind_cons,
        if_neg fun (h : a = u) => hne (h ▸ haw)]
    · rw [List.filter_cons_of_pos (by simp [haw]), keyFind_cons, keyFind_cons, ih]

theorem keyFind_keyInsert_ne {u w : Nat} (hne : u ≠ w) (v : β)
    (m : List (Nat × β)) : keyFind u (keyInsert w v m) = keyFind u m := by
  unfold keyInsert
  rw [keyFind_cons, if_neg fun h => hne h.symm]
  exact keyFind_filter_key_ne hne m

theorem keyFind_foldl_keyInsert_ne {u w : Nat} (hne : u ≠ w) (l : List Nat) :
    ∀ m : List (Nat × Nat),
      keyFind u (l.foldl (fun m2 f => keyInsert w f m2) m) = keyFind u m := by
  induction l with
  | nil => intro m; rfl
  | cons f l ih =>
    intro m
    rw [List.foldl_cons, ih, keyFind_keyInsert_ne hne]

/-- Closed form of the inner contact loop of `stepUser`: the next level map
receives an insert per qualifying contact, the per-user seed list collects
the not-in-any-level contacts, and the flag records whether any contact
qualified. -/
theorem contactsFold_eq (net1 : Network) (levels : List LevelMap)
    (lastL : LevelMap) (user : PublicKey) :
    ∀ (l : List PublicKey) (nm : LevelMap) (sd : List PublicKey) (fl : Bool),
      l.foldl
        (fun (acc2 : LevelMap × List PublicKey × Bool) follow =>
          if (keyFind follow lastL).isSome then
            if mutualsB net1 user follow then
              (keyInsert user follow acc2.1, acc2.2.1, true)
            else acc2
          else
            if levels.all fun lvl => (keyFind follow lvl).isNone then
              (acc2.1, acc2.2.1 ++ [follow], acc2.2.2)
            else acc2)
        (nm, sd, fl) =
      ((l.filter fun f => (keyFind f lastL).isSome &&
          mutualsB net1 user f).foldl (fun m f => keyInsert user f m) nm,
        sd ++ l.filter fun f => (keyFind f lastL).isNone &&
          (levels.all fun lvl => (keyFind f lvl).isNone),
        fl || l.any fun f => (keyFind f lastL).isSome &&
          mutualsB net1 user f) := by
  intro l
  induction l with
  | nil =>
    intro nm sd fl
    simp
  | cons f l ih =>
    intro nm sd fl
    rw [List.foldl_cons]
    rcases hk : keyFind f lastL with _ | bv
    · rw [if_neg (by simp [hk])]
      by_cases h3 : (levels.all fun lvl => (keyFind f lvl).isNone) = true
      · rw [if_pos h3, ih, List.filter_cons_of_neg (by simp [hk]),
          List.filter_cons_of_pos (by simp [hk, h3]), List.any_cons]
        simp [hk, List.append_assoc]
      · rw [if_neg h3, ih, List.filter_cons_of_neg (by simp [hk]),
          List.filter_cons_of_neg (by simp [hk, h3]), List.any_cons]
        simp [hk]
    · rw [if_pos (by simp [hk])]
      by_cases h2 : mutualsB net1 user f = true
      · rw [if_pos h2, ih, List.filter_cons_of_pos (by simp [hk, h2]),
          List.filter_cons_of_neg (by simp [hk]), List.any_cons]
        simp [hk, h2]
      · rw [if_neg h2, ih, List.filter_cons_of_neg (by simp [hk, h2]),
          List.filter_cons_of_neg (by simp [hk]), List.any_cons]
        simp [hk, h2]

/-- Closed form of one border identity's pass: qualifying contacts are
keyed under the identity in the next level map, and its seed contacts reach
the accumulated border exactly when at least one contact qualified. -/
theorem stepUser_eq (net1 : Network) (levels : List LevelMap)
    (acc : LevelMap × List PublicKey) (user : PublicKey) :
    stepUser net1 levels acc user =
      ((qualifyingContacts net1 levels user).foldl
          (fun m f => keyInsert user f m) acc.1,
        if qualifyingContacts net1 levels user = [] then acc.2
        else acc.2 ++ seedContacts net1 levels user) := by
  unfold stepUser qualifyingContacts seedContacts
  rw [contactsFold_eq]
  simp only [List.nil_append, Bool.false_or]
  refine Prod.ext rfl ?_
  by_cases h : (net1.get_user_contacts user).any
      (fun f => (keyFind f (levels.getLastD [])).isSome && mutualsB net1 user f) = true
  · rw [if_pos h, if_neg]
    intro hnil
    rcases List.any_eq_true.1 h with ⟨x, hx, hpx⟩
    exact List.filter_eq_nil_iff.1 hnil x hx hpx
  · rw [if_neg h, if_pos]
    rw [List.filter_eq_nil_iff]
    intro a ha hpa
    exact h (List.any_eq_true.2 ⟨a, ha, hpa⟩)

/-- An identity with no qualifying contact is never keyed into the next
level map built by the border pass. -/
theorem keyFind_stepUser_fold (net1 : Network) (levels : List LevelMap)
    (u : PublicKey) (hq : qualifyingContacts net1 levels u = []) :
    ∀ (bd : List PublicKey) (acc : LevelMap × List PublicKey),
      keyFind u ((bd.foldl (stepUser net1 levels) acc).1) = keyFind u acc.1 := by
  intro bd
  induction bd with
  | nil => intro acc; rfl
  | cons w bd ih =>
    intro acc
    rw [List.foldl_cons, ih, stepUser_eq]
    by_cases hw : w = u
    · subst hw
      rw [hq]
      rfl
    · exact keyFind_foldl_keyInsert_ne (fun h => hw h.symm) _ acc.1

/-- Every member of the new border built by the border pass was seeded by a
border identity that had at least one qualifying contact. -/
theorem mem_stepUser_fold_border (net1 : Network) (levels : List LevelMap) :
    ∀ (bd : List PublicKey) (acc : LevelMap × List PublicKey) (f : PublicKey),
      f ∈ (bd.foldl (stepUser net1 levels) acc).2 →
        f ∈ acc.2 ∨ ∃ w ∈ bd, qualifyingContacts net1 levels w ≠ [] ∧
          f ∈ seedContacts net1 levels w := by
  intro bd
  induction bd with
  | nil =>
    intro acc f h
    exact Or.inl h
  | cons w bd ih =>
    intro acc f h
    rw [List.foldl_cons] at h
    rcases ih _ f h with hacc | ⟨w2, hw2, hq2, hf2⟩
    · rw [stepUser_eq] at hacc
      by_cases hq : qualifyingContacts net1 levels w = []
      · rw [if_pos hq] at hacc
        exact Or.inl hacc
      · rw [if_neg hq] at hacc
        rcases List.mem_append.1 hacc with h1 | h2
        · exact Or.inl h1
        · exact Or.inr ⟨w, by simp, hq, h2⟩
    · exact Or.inr ⟨w2, by simp [hw2], hq2, hf2⟩

/-- C1 (amended): in the frontier expansion, a border identity with zero
qualifying next-level mutual contacts is dropped with no next-level
backpointer recorded, and — contrary to the claim — its not-in-any-level
contacts do not seed the next border: only identities with at least one
qualifying mutual contact contribute their seed contacts. -/
theorem advanceSide_unflagged_spec (src : Src) (net : Network)
    (levels : List LevelMap) (border : List PublicKey) (u : PublicKey)
    (hq : qualifyingContacts (fetchPhase src net border) levels u = []) :
    keyFind u ((advanceSide src net levels border).2.1.getLastD []) = none ∧
      ∀ f ∈ (advanceSide src net levels border).2.2,
        ∃ w ∈ border,
          qualifyingContacts (fetchPhase src net border) levels w ≠ [] ∧
            f ∈ seedContacts (fetchPhase src net border) levels w := by
  have hA : advanceSide src net levels border =
      (fetchPhase src net border,
        levels ++
          [(border.foldl (stepUser (fetchPhase src net border) levels)
            ([], [])).1],
        (border.foldl (stepUser (fetchPhase src net border) levels)
          ([], [])).2.dedup) := rfl
  constructor
  · rw [hA]
    show keyFind u ((levels ++ [_]).getLastD []) = none
    rw [List.getLastD_concat,
      keyFind_stepUser_fold (fetchPhase src net border) levels u hq border ([], [])]
    rfl
  · intro f hf
    rw [hA] at hf
    rcases mem_stepUser_fold_border (fetchPhase src net border) levels border
        ([], []) f (List.mem_dedup.1 hf) with h0 | hr
    · exact absurd h0 (List.not_mem_nil f)
    · exact hr

/-- Witness for `advanceSide_unflagged_spec` at a concrete state. -/
theorem advanceSide_unflagged_spec_witness :
    qualifyingContacts (fetchPhase c1Src c1Net [1]) [[(5, 5)]] 1 = [] ∧
      keyFind 1 ((advanceSide c1Src c1Net [[(5, 5)]] [1]).2.1.getLastD []) = none :=
  ⟨rfl, (advanceSide_unflagged_spec c1Src c1Net [[(5, 5)]] [1] 1 rfl).1⟩

/-- Counterexample to C1 as stated: border identity `1` has the single
contact `2`, no qualifying next-level mutual contact, and `2` lies in no
level of its side (its seed list is exactly `[2]`); after the expansion `1`
has no backpointer — but the new border is empty: `2` did not seed it. -/
theorem advanceSide_seed_counterexample :
    (fetchPhase c1Src c1Net [1]).get_user_contacts 1 = [2] ∧
      qualifyingContacts (fetchPhase c1Src c1Net [1]) [[(5, 5)]] 1 = [] ∧
      seedContacts (fetchPhase c1Src c1Net [1]) [[(5, 5)]] 1 = [2] ∧
      keyFind 1 ((advanceSide c1Src c1Net [[(5, 5)]] [1]).2.1.getLastD []) = none ∧
      (advanceSide c1Src c1Net [[(5, 5)]] [1]).2.2 = [] :=
  ⟨rfl, rfl, rfl, rfl, rfl⟩

/-- C9 (amended): within a NeighborhoodBuilder run the first-discovery
invariant holds — `add_level` filters every candidate against all already
built levels, so pairwise disjointness of the level sequence is preserved
(and holds inductively from the singleton level 0 of a fresh builder).
Within one side of a SeparationSearch the invariant fails: a border
identity placed into the next level map can re-enter the border and be
placed into a later level map too (see the counterexample). -/
theorem add_level_preserves_disjoint (src : Src) (fn : FollowNetwork)
    (h : LevelsDisjoint fn.levels) :
    LevelsDisjoint ((fn.add_level src).levels) := by
  have hlv : (fn.add_level src).levels =
      fn.levels ++ [FollowNetwork.next_level_of src fn.levels] := rfl
  unfold LevelsDisjoint at h ⊢
  rw [hlv, List.pairwise_append]
  refine ⟨h, by simp, ?_⟩
  intro a ha b hb x hxa hxb
  rw [List.mem_singleton] at hb
  subst hb
  unfold FollowNetwork.next_level_of at hxb
  have hxf := List.mem_filter.1 (List.mem_dedup.1 hxb)
  have hall := hxf.2
  rw [List.all_eq_true] at hall
  have hx := hall a ha
  rw [decide_eq_true_eq] at hx
  exact hx hxa

/-- Witness for `add_level_preserves_disjoint`: one `add_level` call on a
fresh builder over the triangle data source. -/
theorem add_level_preserves_disjoint_witness :
    LevelsDisjoint (FollowNetwork.new 0 0 0 Network.new).levels ∧
      LevelsDisjoint
        (((FollowNetwork.new 0 0 0 Network.new).add_level dupSrc).levels) :=
  ⟨by decide,
    add_level_preserves_disjoint dupSrc (FollowNetwork.new 0 0 0 Network.new)
      (by decide)⟩

/-- Counterexample to C9 as stated: in the separation search over the
mutual triangle `0, 1, 2` (targets `0` and `9`), the run reaches round 3
with no collision, yet identity `1` is a key of side 1's level-1 map
(backpointer `0`) and of its level-2 map (backpointer `2`) — one identity
in two different levels of the same side. -/
theorem sep_levels_duplicate_counterexample :
    ((List.range 3).map fun k =>
        checkCollision 0 9 (stateAfter dupSrc dupNet 0 9 k)) =
        List.replicate 3 none ∧
      keyFind 1 ((stateAfter dupSrc dupNet 0 9 3).mutual_levels_1.getD 1 []) =
        some 0 ∧
      keyFind 1 ((stateAfter dupSrc dupNet 0 9 3).mutual_levels_1.getD 2 []) =
        some 2 :=
  ⟨rfl, rfl, rfl⟩

/-- C4: `generate_user_ranks` fails with `NotEnoughLevels` whenever fewer
than 3 levels are built; otherwise it returns exactly one entry
`(g, rank, reasons)` per identity `g` of level 2, where the rank is `10 ×`
the number of mutuals of `g` lying in level 1, the reasons name exactly
those qualifying level-1 mutuals, and the list is sorted ascending by
rank.  (The hypothesis is the `HashSet` invariant that level 2 holds no
duplicates.) -/
theorem generate_user_ranks_spec (fn : FollowNetwork)
    (h2 : (fn.levels.getD 2 []).Nodup) :
    (fn.levels.length ≤ 2 →
      fn.generate_user_ranks = .error RecommendationError.NotEnoughLevels) ∧
    (2 < fn.levels.length → ∃ l, fn.generate_user_ranks = .ok l ∧
      (l.map Prod.fst).Perm (fn.levels.getD 2 []) ∧
      (l.map Prod.fst).Nodup ∧
      (∀ g r rs, (g, r, rs) ∈ l →
        r = 10 * (FollowNetwork.mutual_reasons_of fn g).length ∧
        rs = [RankReasons.MutualConnections
          (FollowNetwork.mutual_reasons_of fn g)]) ∧
      l.Pairwise fun a b => a.2.1 ≤ b.2.1) := by
  constructor
  · intro h
    unfold FollowNetwork.generate_user_ranks
    rw [if_pos h]
  · intro h
    unfold FollowNetwork.generate_user_ranks
    rw [if_neg (by omega)]
    have hperm :
        (((fn.levels.getD 2 []).map fun u =>
            (u, (10 : Int) * (FollowNetwork.mutual_reasons_of fn u).length,
              [RankReasons.MutualConnections
                (FollowNetwork.mutual_reasons_of fn u)])).insertionSort
          (fun a b => a.2.1 ≤ b.2.1)).Perm
          ((fn.levels.getD 2 []).map fun u =>
            (u, (10 : Int) * (FollowNetwork.mutual_reasons_of fn u).length,
              [RankReasons.MutualConnections
                (FollowNetwork.mutual_reasons_of fn u)])) :=
      List.perm_insertionSort _ _
    have hkeys : ((((fn.levels.getD 2 []).map fun u =>
        (u, (10 : Int) * (FollowNetwork.mutual_reasons_of fn u).length,
          [RankReasons.MutualConnections
            (FollowNetwork.mutual_reasons_of fn u)])).insertionSort
          (fun a b => a.2.1 ≤ b.2.1)).map Prod.fst).Perm
        (fn.levels.getD 2 []) := by
      refine (hperm.map Prod.fst).trans ?_
      have hmapfst : (((fn.levels.getD 2 []).map fun u =>
          (u, (10 : Int) * (FollowNetwork.mutual_reasons_of fn u).length,
            [RankReasons.MutualConnections
              (FollowNetwork.mutual_reasons_of fn u)])).map Prod.fst) =
          fn.levels.getD 2 [] := by
        rw [List.map_map]
        exact List.map_id _
      rw [hmapfst]
    refine ⟨_, rfl, hkeys, (hkeys.nodup_iff).2 h2, ?_, ?_⟩
    · intro g r rs hmem
      have hmem2 := hperm.mem_iff.1 hmem
      rcases List.mem_map.1 hmem2 with ⟨u, hu, hequ⟩
      cases hequ
      exact ⟨rfl, rfl⟩
    · exact List.sorted_insertionSort _ _

/-- Witness for `generate_user_ranks_spec`: the ranking scenario — root
`0`, level 1 `{1, 2}`, level 2 `{3}`, with `1` and `2` both mutual with
`3` — where `3` gets rank 20 with reasons `{1, 2}`. -/
theorem generate_user_ranks_spec_witness :
    (rankFn.levels.getD 2 []).Nodup ∧ 2 < rankFn.levels.length ∧
      ∃ l, rankFn.generate_user_ranks = .ok l ∧
        (l.map Prod.fst).Perm (rankFn.levels.getD 2 []) ∧
        (l.map Prod.fst).Nodup ∧
        (∀ g r rs, (g, r, rs) ∈ l →
          r = 10 * (FollowNetwork.mutual_reasons_of rankFn g).length ∧
          rs = [RankReasons.MutualConnections
            (FollowNetwork.mutual_reasons_of rankFn g)]) ∧
        l.Pairwise fun a b => a.2.1 ≤ b.2.1 :=
  ⟨by decide, by decide,
    (generate_user_ranks_spec rankFn (by decide)).2 (by decide)⟩

end SixDeg
